import Mathlib

/-!
Verification development for the diabetes preprocessing pipeline
(`services/agents/enhanced_eda_preprocess.py`) and its prediction-time
consumer (`services/app/services/prediction.py`).

The pandas data model is shallowly embedded: a cell is `Option Val`
(`none` is the missing-value marker NaN/NA), a column is a list of cells,
a data frame is an association list from column name to column.  Floating
point numbers are modelled as rationals; library routines whose output is
irrational (the standard deviation used as a scaling factor) or
platform-specific (the text rendering of a float) are passed in as
explicit parameters of the embedding.  Each definition is translated from
the named source function; deviations forced by totalisation (places
where the Python would raise on ill-typed data) are noted in doc comments.
-/

/-- A pandas cell value: a float (modelled as `ℚ`) or a string. -/
inductive Val where
  | num (q : ℚ)
  | str (s : String)
deriving DecidableEq

/-- A cell: `none` models NaN / pd.NA (a missing value). -/
abbrev Cell := Option Val

/-- A column of a data frame. -/
abbrev Column := List Cell

/-- `strPrefixB needle hay`: `needle` is a prefix of `hay` (character lists). -/
def strPrefixB : List Char → List Char → Bool
  | [], _ => true
  | _ :: _, [] => false
  | a :: as, b :: bs => a == b && strPrefixB as bs

/-- Helper for substring search over character lists. -/
def strContainsAux (needle : List Char) : List Char → Bool
  | [] => strPrefixB needle []
  | c :: rest => strPrefixB needle (c :: rest) || strContainsAux needle rest

/-- `containsStr hay needle` models Python's `needle in hay` on strings. -/
def containsStr (hay needle : String) : Bool :=
  strContainsAux needle.data hay.data

/-- Python's `str.lower()` on the ASCII identifiers this pipeline
handles, computed character-wise (the library `String.toLower` is
extensionally the same on them but is opaque to kernel reduction). -/
def pyLower (s : String) : String := ⟨s.data.map Char.toLower⟩

/-- Python's `str.title()` on the single lowercase words that reach it:
upper-case the first character. -/
def pyCapitalize (s : String) : String :=
  ⟨match (pyLower s).data with
   | [] => []
   | c :: r => Char.toUpper c :: r⟩

/-- Number of missing cells in a column (`Series.isnull().sum()`). -/
def missingCount (c : Column) : Nat :=
  c.countP (fun x => x == none)

/-- The numeric values of the non-missing cells of a column
(`Series.dropna()` on a numeric column). -/
def cellNums (c : Column) : List ℚ :=
  c.filterMap (fun x => match x with | some (.num q) => some q | _ => none)

/-- A bin edge for `pd.cut`: `none` stands for `float('inf')`. -/
abbrev Edge := Option ℚ

/-- `ltEdge e x`: the (finite) lower edge `e` is strictly below `x`.
An infinite lower edge never occurs in the source's bins. -/
def ltEdge : Edge → ℚ → Bool
  | none, _ => false
  | some l, x => decide (l < x)

/-- `leEdge x e`: `x` is at most the upper edge `e` (`float('inf')` bounds
everything). -/
def leEdge (x : ℚ) : Edge → Bool
  | none => true
  | some h => decide (x ≤ h)

/-- `pdCut x edges labels` models `pd.cut` with default `right=True`:
the value `x` is assigned the label of the first interval
`(edges[i], edges[i+1]]` containing it, and `none` (NaN) when no interval
does. -/
def pdCut (x : ℚ) : List Edge → List String → Option String
  | e1 :: e2 :: es, lab :: labs =>
      if ltEdge e1 x && leEdge x e2 then some lab else pdCut x (e2 :: es) (labs)
  | _, _ => none

/-- Bin edges for `bmi_risk_level`: `[0, 18.5, 25, 30, 35, float('inf')]`
(enhanced_eda_preprocess.py line 418). -/
def bmiBins : List Edge := [some 0, some (37/2), some 25, some 30, some 35, none]

/-- Labels for `bmi_risk_level` (line 419). -/
def bmiLabels : List String :=
  ["underweight", "normal", "overweight", "obese_1", "obese_2"]

/-- The bucket `pd.cut` assigns to a single bmi value
(enhanced_eda_preprocess.py lines 417-419). -/
def bmi_risk_label (x : ℚ) : Option String := pdCut x bmiBins bmiLabels

/-- Bin edges for `age_diabetes_risk`: `[0, 35, 45, 65, float('inf')]`
(line 426). -/
def ageBins : List Edge := [some 0, some 35, some 45, some 65, none]

/-- Labels for `age_diabetes_risk` (line 427). -/
def ageLabels : List String :=
  ["low_risk", "moderate_risk", "high_risk", "very_high_risk"]

/-- The bucket `pd.cut` assigns to a single age value (lines 425-427). -/
def age_risk_label (x : ℚ) : Option String := pdCut x ageBins ageLabels

/-! ### Outlier treatment (enhanced_eda_preprocess.py lines 288-328) -/

/-- Ascending sort used by the quantile computation. -/
def sortQ (xs : List ℚ) : List ℚ := List.insertionSort (· ≤ ·) xs

/-- `numpy`/pandas `quantile(q)` with the default linear interpolation on an
already sorted nonempty list: with `h = q*(n-1)`, `j = ⌊h⌋`, the result is
`s[j] + (h-j)*(s[j+1] - s[j])`. -/
def quantileOfSorted (s : List ℚ) (q : ℚ) : ℚ :=
  let n : ℚ := (s.length : ℚ)
  let h : ℚ := q * (n - 1)
  let j : ℕ := (⌊h⌋).toNat
  let a := s.getD j 0
  let b := s.getD (j + 1) a
  a + (h - (j : ℚ)) * (b - a)

/-- `Series.quantile(q)`: missing cells are ignored; the quantile of an
empty series is NaN (modelled `none`). -/
def seriesQuantile (c : List (Option ℚ)) (q : ℚ) : Option ℚ :=
  let xs := c.filterMap id
  if xs.isEmpty then none else some (quantileOfSorted (sortQ xs) q)

/-- `detect_outliers_iqr` (lines 288-295): flag values strictly outside
`[Q1 - m*IQR, Q3 + m*IQR]`.  A NaN cell compares `False` on both sides,
and if the whole column is NaN both quantiles are NaN, so nothing is
flagged. -/
def detect_outliers_iqr (c : List (Option ℚ)) (m : ℚ) : List Bool :=
  match seriesQuantile c (1/4), seriesQuantile c (3/4) with
  | some q1, some q3 =>
      c.map (fun x => match x with
        | none => false
        | some v => decide (v < q1 - m * (q3 - q1)) || decide (v > q3 + m * (q3 - q1)))
  | _, _ => c.map (fun _ => false)

/-- The `cap` branch of `handle_outliers` (lines 307-316): recompute the
IQR bounds on the column and clamp via the two `np.where` passes.  A NaN
cell fails both comparisons and is left NaN. -/
def capCells (c : List (Option ℚ)) (m : ℚ) : List (Option ℚ) :=
  match seriesQuantile c (1/4), seriesQuantile c (3/4) with
  | some q1, some q3 =>
      let iqr := q3 - q1
      let lower := q1 - m * iqr
      let upper := q3 + m * iqr
      (c.map (fun x => x.map (fun v => if v < lower then lower else v))).map
        (fun x => x.map (fun v => if v > upper then upper else v))
  | _, _ => c

/-- One whole `handle_outliers` loop iteration for a single column in
`cap` mode (lines 302-316): detect, count, and cap only when the count is
positive. -/
def capColumn (c : List (Option ℚ)) (m : ℚ) : List (Option ℚ) :=
  if (detect_outliers_iqr c m).count true > 0 then capCells c m else c

/-- A numeric data frame as handled by `handle_outliers`: column name to
column of optional rationals. -/
abbrev OFrame := List (String × List (Option ℚ))

/-- First-match column lookup (missing column yields the empty column). -/
def ogetCol (d : OFrame) (n : String) : List (Option ℚ) :=
  ((d.find? (fun p => p.1 == n)).map (fun p => p.2)).getD []

/-- Replace the contents of every column named `n`. -/
def oupdateCol (d : OFrame) (n : String) (c : List (Option ℚ)) : OFrame :=
  d.map (fun p => if p.1 == n then (p.1, c) else p)

/-- Drop the rows flagged `true` in `mask` from one column. -/
def dropMasked (c : List (Option ℚ)) (mask : List Bool) : List (Option ℚ) :=
  (c.zip mask).filterMap (fun p => if p.2 then none else some p.1)

/-- `df_clean = df_clean[~outliers]` (line 320): drop flagged rows from
every column. -/
def removeRows (d : OFrame) (mask : List Bool) : OFrame :=
  d.map (fun p => (p.1, dropMasked p.2 mask))

/-- Number of rows of a frame (length of its first column). -/
def rowCount (d : OFrame) : Nat :=
  match d with
  | [] => 0
  | p :: _ => p.2.length

/-- Python's `round(x, 2)`, modelled as round-half-up at two decimals
(the tie-breaking convention differs from Python's banker's rounding only
at exact half-cents, which none of the theorems depend on). -/
def round2 (x : ℚ) : ℚ := ((⌊x * 100 + 1/2⌋ : ℤ) : ℚ) / 100

/-- The per-column loop of `handle_outliers` (lines 302-326), carried over
the remaining columns.  `len0` is the row count of the original `df`
argument, used by the percentage (the source divides by `len(df)` even in
`remove` mode).  Each iteration records exactly the three dictionary keys
written by the source: `outlier_count`, `outlier_percentage`,
`method_applied`. -/
def handle_outliers_go (len0 : Nat) (method : String) (m : ℚ) :
    OFrame → List String → OFrame × List (String × List (String × Val))
  | d, [] => (d, [])
  | d, col :: rest =>
      let c := ogetCol d col
      let outliers := detect_outliers_iqr c m
      let cnt := outliers.count true
      let d' :=
        if cnt > 0 then
          if method == "cap" then oupdateCol d col (capCells c m)
          else if method == "remove" then removeRows d outliers
          else d
        else d
      let rec0 : List (String × Val) :=
        [("outlier_count", Val.num (cnt : ℚ)),
         ("outlier_percentage", Val.num (round2 ((cnt : ℚ) / (len0 : ℚ) * 100))),
         ("method_applied", Val.str (if cnt > 0 then method else "none"))]
      let out := handle_outliers_go len0 method m d' rest
      (out.1, (col, rec0) :: out.2)

/-- `handle_outliers(df, numeric_cols, method, multiplier)`
(lines 297-328): returns the treated frame and the per-column outlier
records in column order. -/
def handle_outliers (df : OFrame) (numeric_cols : List String)
    (method : String) (m : ℚ) : OFrame × List (String × List (String × Val)) :=
  handle_outliers_go (rowCount df) method m df numeric_cols

/-! ### Imputation engine (`enhanced_imputation`, lines 330-407) -/

/-- A general data frame: column name to column of cells. -/
abbrev Frame := List (String × Column)

/-- First-match column lookup (missing column yields the empty column). -/
def getCol (f : Frame) (n : String) : Column :=
  ((f.find? (fun p => p.1 == n)).map (fun p => p.2)).getD []

/-- `n in df.columns`. -/
def hasCol (f : Frame) (n : String) : Bool := f.any (fun p => p.1 == n)

/-- `df[n] = c`: replace the contents of every column named `n`. -/
def updateCol (f : Frame) (n : String) (c : Column) : Frame :=
  f.map (fun p => if p.1 == n then (p.1, c) else p)

/-- `Series.fillna(v)`: replace missing cells by `v`.  Filling with NaN
(`v = none`) keeps cells missing, exactly as in pandas. -/
def fillna (c : Column) (v : Cell) : Column :=
  c.map (fun x => match x with | some a => some a | none => v)

/-- `Series.median()` (NaN for an empty series): sort and take the middle
element, or the average of the two middle elements. -/
def medianQ (xs : List ℚ) : Option ℚ :=
  let s := sortQ xs
  let n := s.length
  if n = 0 then none
  else if n % 2 = 1 then some (s.getD (n / 2) 0)
  else some ((s.getD (n / 2 - 1) 0 + s.getD (n / 2) 0) / 2)

/-- Lexicographic order on character lists (by code point), the order in
which Python and pandas compare strings. -/
def charListLeB : List Char → List Char → Bool
  | [], _ => true
  | _ :: _, [] => false
  | a :: as, b :: bs =>
      if a < b then true else if b < a then false else charListLeB as bs

/-- String comparison by code points. -/
def strLeB (a b : String) : Bool := charListLeB a.data b.data

/-- The ordering pandas uses to sort the candidates returned by
`Series.mode()` (numbers and strings never mix in one column in practice;
the cross cases are arbitrary). -/
def valLeB : Val → Val → Bool
  | .num a, .num b => decide (a ≤ b)
  | .str a, .str b => strLeB a b
  | .num _, .str _ => true
  | .str _, .num _ => false

/-- Least element of a list of values under `valLeB`. -/
def valMin? (l : List Val) : Option Val :=
  l.foldl (fun acc v =>
    match acc with
    | none => some v
    | some mn => some (if valLeB v mn then v else mn)) none

/-- Occurrence count of one value. -/
def countVal (l : List Val) (v : Val) : Nat := l.countP (fun w => w == v)

/-- `Series.mode()[0]` when the mode list is nonempty: the smallest of the
most frequent non-missing values (`mode()` sorts its result);
`none` when the column has no observed value. -/
def modeVal? (c : Column) : Option Val :=
  let obs := c.filterMap id
  let d := obs.dedup
  let mx := (d.map (countVal obs)).foldl max 0
  valMin? (d.filter (fun v => countVal obs v = mx))

/-- `medical_features` (line 336). -/
def medical_features : List String :=
  ["bmi", "hbA1c_level", "blood_glucose_level", "sleep_hours"]

/-- The gender-linked categorical columns of line 369. -/
def genderLinkedCols : List String :=
  ["gestational_history", "gestational_diabetes", "pregnancy_history"]

/-- The `male` patterns of line 378. -/
def malePatterns : List String := ["male", "m", "man"]

/-- Line 371-372: use `gender` if present, else `sex`, else no gender
column. -/
def genderColName (f : Frame) : Option String :=
  if hasCol f "gender" then some "gender"
  else if hasCol f "sex" then some "sex" else none

/-- The sub-column of `c` at the rows whose `g`-value equals `gv`
(`df_imputed.loc[gender_mask, col]`). -/
def groupCells (c g : Column) (gv : Val) : Column :=
  (c.zip g).filterMap (fun p => if p.2 == some gv then some p.1 else none)

/-- `gender_val.lower() in male patterns`.  The source calls `.lower()`,
which requires the gender value to be a string; a numeric gender value
(which would raise in Python) is totalised as not-male. -/
def isMaleVal : Val → Bool
  | .str s => malePatterns.contains (pyLower s)
  | .num _ => false

/-- The gender-aware fill of lines 375-385, row by row: a missing cell in
a male row becomes `"Not Applicable"`; in any other row with an observed
gender it becomes the mode within that gender partition, or `"No"` when
that partition has no mode.  Rows whose gender is itself missing are
skipped by the source's `pd.notna(gender_val)` guard and stay missing. -/
def genderAwareFill (c g : Column) : Column :=
  (c.zip g).map (fun p =>
    match p.1 with
    | some v => some v
    | none =>
        match p.2 with
        | none => none
        | some gv =>
            if isMaleVal gv then some (.str "Not Applicable")
            else some ((modeVal? (groupCells c g gv)).getD (.str "No")))

/-- The values of column `c` in the target-group of `t`-value `k`. -/
def targetGroupNums (c t : Column) (k : Val) : List ℚ :=
  cellNums ((c.zip t).filterMap (fun p => if p.2 == some k then some p.1 else none))

/-- `df_imputed.groupby(target)[col].transform(lambda x: x.fillna(x.median())
if not x.median() != x.median() else x.fillna(df_imputed[col].median()))`
(lines 347-349), row by row.  `x.median() != x.median()` is the NaN test:
a group with an observed value is filled with its group median, an
all-missing group falls back to the whole column's median.  Rows with a
missing group key are not part of any group, so `transform` yields NaN
for them. -/
def groupMedianTransform (c t : Column) : Column :=
  (c.zip t).map (fun p =>
    match p.2 with
    | none => none
    | some k =>
        match p.1 with
        | some v => some v
        | none =>
            match medianQ (targetGroupNums c t k) with
            | some gm => some (.num gm)
            | none => (medianQ (cellNums c)).map Val.num)

/-- One iteration of the numeric loop of `enhanced_imputation`
(lines 339-361): skip when the column has no missing value; otherwise a
medical column with a target present in the frame gets the target-grouped
median transform and everything else the global median fill (filling with
a NaN median keeps the cells missing, as in pandas). -/
def imputeNumericCol (f : Frame) (tcOpt : Option String) (name : String) : Frame :=
  let c := getCol f name
  if missingCount c = 0 then f
  else
    let c' :=
      if medical_features.contains name then
        match tcOpt with
        | some tc =>
            if hasCol f tc then groupMedianTransform c (getCol f tc)
            else fillna c ((medianQ (cellNums c)).map Val.num)
        | none => fillna c ((medianQ (cellNums c)).map Val.num)
      else fillna c ((medianQ (cellNums c)).map Val.num)
    updateCol f name c'

/-- One iteration of the categorical loop of `enhanced_imputation`
(lines 364-405): skip when the column has no missing value; a
gender-linked column gets the gender-aware fill (or a blanket
`"Not Applicable"` fill when no gender column exists); any other
categorical column is filled with its mode, or `"Unknown"` when it has no
mode. -/
def imputeCategoricalCol (f : Frame) (name : String) : Frame :=
  let c := getCol f name
  if missingCount c = 0 then f
  else
    let c' :=
      if genderLinkedCols.contains (pyLower name) then
        match genderColName f with
        | some gc => genderAwareFill c (getCol f gc)
        | none => fillna c (some (.str "Not Applicable"))
      else
        match modeVal? c with
        | some mv => fillna c (some mv)
        | none => fillna c (some (.str "Unknown"))
    updateCol f name c'

/-- `enhanced_imputation(df, numeric_cols, categorical_cols, target_col)`
(lines 330-407): the numeric loop followed by the categorical loop, each
mutating the frame column by column in list order. -/
def enhanced_imputation (f : Frame) (numeric_cols categorical_cols : List String)
    (tcOpt : Option String) : Frame :=
  let f1 := numeric_cols.foldl (fun d col => imputeNumericCol d tcOpt col) f
  categorical_cols.foldl (fun d col => imputeCategoricalCol d col) f1

/-! ### Classification overrides (enhanced_preprocessing, lines 547-562) -/

/-- `Series.astype(str)` on a numeric column: every observed float is
rendered as text by the library (passed in as `render`), and a NaN cell
becomes the literal string `"nan"` — an observed, non-missing value.  The
`year` override (lines 548-553) applies exactly this and nothing else. -/
def astype_str (render : ℚ → String) (c : List (Option ℚ)) : List (Option String) :=
  c.map (fun x => match x with | some q => some (render q) | none => some "nan")

/-- The `year` override (lines 548-553): stringify only. -/
def year_override (render : ℚ → String) (c : List (Option ℚ)) : List (Option String) :=
  astype_str render c

/-- The `gestational_history` override (lines 556-562): stringify, then
`replace('nan', pd.NA)` turns the text `"nan"` back into a missing
value. -/
def gestational_override (render : ℚ → String) (c : List (Option ℚ)) :
    List (Option String) :=
  (astype_str render c).map (fun s => if s == some "nan" then none else s)

/-! ### Feature engineering and ML preparation
(`feature_engineering` lines 409-470, `enhanced_preprocessing`
steps 5 and 8-9, lines 583-642) -/

/-- A pandas dtype as far as the pipeline's branching can observe it:
proper numeric (`float64`/`int64`/`bool`), `object` (strings), or the
Categorical dtype produced by `pd.cut`. -/
inductive Dt where
  | num
  | obj
  | cat
deriving DecidableEq

/-- A data-frame column together with its dtype. -/
structure DCol where
  name : String
  dt : Dt
  cells : List Cell
deriving DecidableEq

/-- Column names of a frame. -/
def dnames (df : List DCol) : List String := df.map (fun c => c.name)

/-- `n in df.columns`. -/
def dhas (df : List DCol) (n : String) : Bool := df.any (fun c => c.name == n)

/-- First column named `n`, if any. -/
def dget (df : List DCol) (n : String) : Option DCol :=
  df.find? (fun c => c.name == n)

/-- Cells of the column named `n` (empty when absent). -/
def dcells (df : List DCol) (n : String) : List Cell :=
  ((dget df n).map (fun c => c.cells)).getD []

/-- Row count of a frame (length of its first column). -/
def dRowCount (df : List DCol) : Nat :=
  match df with
  | [] => 0
  | c :: _ => c.cells.length

/-- `pd.cut` applied to one bmi cell: numeric values go through the bins,
NaN stays NaN.  (`pd.cut` on a non-numeric column raises; totalised as
missing.) -/
def bmiCutCell (cell : Cell) : Cell :=
  match cell with
  | some (.num q) => (bmi_risk_label q).map Val.str
  | _ => none

/-- `pd.cut` applied to one age cell. -/
def ageCutCell (cell : Cell) : Cell :=
  match cell with
  | some (.num q) => (age_risk_label q).map Val.str
  | _ => none

/-- Numeric reading of a cell with NaN as 0, the convention of
`DataFrame.sum(axis=1)` (`skipna=True`). -/
def cellNumD (cell : Cell) : ℚ :=
  match cell with
  | some (.num q) => q
  | _ => 0

/-- `health_indicators` (line 431). -/
def healthIndicators : List String := ["hypertension", "heart_disease", "family_history"]

/-- `df[cols].sum(axis=1)` (lines 435 and 459): row-wise sum over the
given columns, missing entries contributing 0. -/
def rowSumCells (cols : List (List Cell)) (n : Nat) : List Cell :=
  (List.range n).map (fun i =>
    some (.num ((cols.map (fun cs => cellNumD (cs.getD i none))).sum)))

/-- `activity_map` (line 443). -/
def activityMap : List (String × ℚ) := [("low", 0), ("moderate", 1), ("high", 2)]

/-- `physical_activity.map(activity_map).fillna(0)` (line 444) on one
cell: unmapped or missing values become 0. -/
def activityCell (cell : Cell) : Cell :=
  some (.num (match cell with
    | some (.str s) => (activityMap.lookup s).getD 0
    | _ => 0))

/-- The sleep-quality lambda (lines 451-453) on one cell: 2 for 7-9
hours, 1 for 6-10 hours, else 0; missing sleeps score 0.  (A non-numeric
sleep value would raise in Python; totalised as 0.) -/
def sleepCell (cell : Cell) : Cell :=
  some (.num (match cell with
    | some (.num x) => if 7 ≤ x ∧ x ≤ 9 then 2 else if 6 ≤ x ∧ x ≤ 10 then 1 else 0
    | _ => 0))

/-- `urban_rural.map({'urban': 1.1, 'rural': 0.9}).fillna(1.0)` (lines
465-467) on one cell. -/
def urbanMult (cell : Cell) : ℚ :=
  match cell with
  | some (.str s) => if s == "urban" then 11/10 else if s == "rural" then 9/10 else 1
  | _ => 1

/-- One cell of `environmental_risk * mapped urban multiplier` (lines
466-467): NaN environmental risk propagates.  (A non-numeric
environmental risk would raise in Python; totalised as missing.) -/
def locationCell (env urban : Cell) : Cell :=
  match env with
  | some (.num q) => some (.num (q * urbanMult urban))
  | _ => none

/-- `feature_engineering(df, target_col)` (lines 409-470): append each
derived column whose source columns are present, in source order, and
return the list of created feature names.  `pd.cut` outputs carry the
Categorical dtype, every other derived column is numeric.  All presence
checks are against the input `df`, as in the source. -/
def feature_engineering (df : List DCol) : List DCol × List String :=
  let d1 := if dhas df "bmi" then
      df ++ [⟨"bmi_risk_level", .cat, (dcells df "bmi").map bmiCutCell⟩] else df
  let f1 := if dhas df "bmi" then ["bmi_risk_level"] else []
  let d2 := if dhas df "age" then
      d1 ++ [⟨"age_diabetes_risk", .cat, (dcells df "age").map ageCutCell⟩] else d1
  let f2 := f1 ++ (if dhas df "age" then ["age_diabetes_risk"] else [])
  let avail := healthIndicators.filter (dhas df)
  let d3 := if avail.isEmpty then d2 else
      d2 ++ [⟨"health_risk_score", .num,
              rowSumCells (avail.map (dcells df)) (dRowCount df)⟩]
  let f3 := f2 ++ (if avail.isEmpty then [] else ["health_risk_score"])
  let hasPA := dhas df "physical_activity"
  let d4 := if hasPA then
      d3 ++ [⟨"activity_score", .num, (dcells df "physical_activity").map activityCell⟩]
    else d3
  let f4 := f3 ++ (if hasPA then ["activity_score"] else [])
  let hasSleep := dhas df "sleep_hours"
  let d5 := if hasSleep then
      d4 ++ [⟨"sleep_quality", .num, (dcells df "sleep_hours").map sleepCell⟩] else d4
  let f5 := f4 ++ (if hasSleep then ["sleep_quality"] else [])
  let lf := (if hasPA then ["activity_score"] else []) ++
            (if hasSleep then ["sleep_quality"] else [])
  let d6 := if lf.isEmpty then d5 else
      d5 ++ [⟨"lifestyle_score", .num, rowSumCells (lf.map (dcells d5)) (dRowCount df)⟩]
  let f6 := f5 ++ (if lf.isEmpty then [] else ["lifestyle_score"])
  let hasLoc := dhas df "environmental_risk" && dhas df "urban_rural"
  let d7 := if hasLoc then
      d6 ++ [⟨"location_risk", .num,
              ((dcells df "environmental_risk").zip (dcells df "urban_rural")).map
                (fun p => locationCell p.1 p.2)⟩]
    else d6
  let f7 := f6 ++ (if hasLoc then ["location_risk"] else [])
  (d7, f7)

/-- `categorical_for_encoding` (lines 616-617): keep only the categorical
columns with no `{col}_target_encoded` counterpart among the frame's
column names. -/
def categoricalForEncoding (dfml : List DCol) (ccols : List String) : List String :=
  ccols.filter (fun col =>
    ! (dnames dfml).any (fun cn => containsStr cn (col ++ "_target_encoded")))

/-- `valLeB` as a relation, for sorting with `List.insertionSort`. -/
def valLeP (a b : Val) : Prop := valLeB a b = true

instance : DecidableRel valLeP :=
  fun a b => inferInstanceAs (Decidable (valLeB a b = true))

/-- The distinct observed values of a column in the sorted order
`pd.get_dummies` uses for the generated indicator columns. -/
def distinctValsSorted (cells : List Cell) : List Val :=
  List.insertionSort valLeP (cells.filterMap id).dedup

/-- The text rendering used in a dummy column's name `f"{col}_{value}"`.
String categories are used verbatim; the library rendering of a float
category is modelled by `toString`. -/
def valStr : Val → String
  | .str s => s
  | .num q => toString q

/-- Name of the indicator column for value `v` of column `cn`. -/
def dummyName (cn : String) (v : Val) : String := cn ++ "_" ++ valStr v

/-- The indicator columns `pd.get_dummies` generates for one source
column: one column per distinct observed value holding 1 exactly at the
rows with that value (a missing row gets 0 in every indicator, the
`dummy_na=False` default).  Dummy columns are boolean in pandas, which
`is_numeric_dtype` counts as numeric. -/
def dummiesFor (df : List DCol) (cn : String) : List DCol :=
  match dget df cn with
  | none => []
  | some c =>
      (distinctValsSorted c.cells).map (fun v =>
        ⟨dummyName cn v, .num,
         c.cells.map (fun cell => some (.num (if cell == some v then 1 else 0)))⟩)

/-- `pd.get_dummies(df_ml, columns=categorical_for_encoding,
drop_first=False)` (line 622): the encoded columns are removed and their
indicator columns appended. -/
def getDummiesDf (df : List DCol) (cfe : List String) : List DCol :=
  df.filter (fun c => ! cfe.contains c.name) ++ cfe.flatMap (dummiesFor df)

/-- `final_numeric_cols` (lines 625-634): the members of `numeric_cols`
still present in `df_ml` with a numeric dtype, extended with every column
whose name contains `target_encoded`. -/
def finalNumericCols (dfml : List DCol) (ncols : List String) : List String :=
  (ncols.filter (fun col =>
    match dget dfml col with
    | some dc => dc.dt == Dt.num
    | none => false)) ++
  (dnames dfml).filter (fun cn => containsStr cn "target_encoded")

/-- Mean of a list of rationals (0 for the empty list). -/
def meanQ (xs : List ℚ) : ℚ := xs.sum / (xs.length : ℚ)

/-- Population variance (`ddof=0`), the convention of
`sklearn.StandardScaler`. -/
def popVar (xs : List ℚ) : ℚ :=
  ((xs.map (fun x => (x - meanQ xs) ^ 2)).sum) / (xs.length : ℚ)

/-- One column of `StandardScaler.fit_transform` (line 641): subtract the
column mean and divide by the library-computed scale `s` (the standard
deviation, irrational in general, hence a parameter of the embedding; a
zero-variance column gets scale 1). -/
def standardize_col (xs : List ℚ) (s : ℚ) : List ℚ :=
  xs.map (fun x => (x - meanQ xs) / s)

/-- `standardize_col` on cells: observed numeric cells are transformed,
anything else is untouched (scaled columns hold no NaN after
imputation). -/
def standardizeCells (cells : List Cell) (s : ℚ) : List Cell :=
  let mn := meanQ (cells.map cellNumD)
  cells.map (fun cell =>
    match cell with
    | some (.num q) => some (.num ((q - mn) / s))
    | x => x)

/-- `df_ml[final_numeric_cols] = scaler.fit_transform(...)` (lines
637-641), guarded by `if final_numeric_cols:`. -/
def scaleStep (dfml : List DCol) (fincols : List String) (scaleOf : String → ℚ) :
    List DCol :=
  if fincols.isEmpty then dfml
  else
    dfml.map (fun c =>
      if fincols.contains c.name then
        { c with cells := standardizeCells c.cells (scaleOf c.name) }
      else c)

/-- Steps 8-9 of `enhanced_preprocessing` (lines 612-642): one-hot encode
the categorical columns without a target-encoded counterpart, then scale
the final numeric columns (`scaleOf` supplies the library's fitted
per-column scale). -/
def mlPrep (dfclean : List DCol) (ncols ccols : List String) (scaleOf : String → ℚ) :
    List DCol :=
  let cfe := categoricalForEncoding dfclean ccols
  let dfml := getDummiesDf dfclean cfe
  scaleStep dfml (finalNumericCols dfml ncols) scaleOf

/-- Step 5 followed by steps 8-9 of `enhanced_preprocessing` (lines
583-642): run `feature_engineering`, extend `categorical_cols` with the
new object-dtype features and `numeric_cols` with the rest (lines
589-593), then prepare the ML-ready table. -/
def fePlusML (df : List DCol) (ncols ccols : List String) (scaleOf : String → ℚ) :
    List DCol :=
  let fe := feature_engineering df
  let newCat := fe.2.filter (fun f =>
    match dget fe.1 f with
    | some dc => dc.dt == Dt.obj
    | none => false)
  let ccols' := ccols ++ newCat
  let ncols' := ncols ++ fe.2.filter (fun f => ! newCat.contains f)
  mlPrep fe.1 ncols' ccols' scaleOf

/-! ### Feature selection (enhanced_preprocessing, lines 644-703) -/

/-- A column of the encoded table `df_ml` as the feature-selection step
observes it: its name and whether `pd.api.types.is_numeric_dtype` holds. -/
structure MLCol where
  name : String
  numeric : Bool
deriving DecidableEq

/-- A row of `feature_selection_report.csv` (lines 681-694). -/
structure ReportRow where
  feature : String
  score : ℚ
  selected : Bool
  protFlag : Bool
deriving DecidableEq

/-- The protected substrings of lines 659-660. -/
def protectedTerms : List String :=
  ["gestational", "pregnancy", "hba1c", "glucose", "bmi", "age"]

/-- `any(term in col.lower() for term in [...])` (lines 659-660). -/
def isProtectedName (s : String) : Bool :=
  protectedTerms.any (fun t => containsStr (pyLower s) t)

/-- `tc in df_ml.columns`. -/
def mlHas (cols : List MLCol) (n : String) : Bool := cols.any (fun c => c.name == n)

/-- `X = df_ml.drop(columns=[target_col])` (line 651). -/
def featureCols (cols : List MLCol) (tc : String) : List MLCol :=
  cols.filter (fun c => c.name != tc)

/-- `numeric_feature_cols` (line 655). -/
def numericFeatureCols (cols : List MLCol) (tc : String) : List MLCol :=
  (featureCols cols tc).filter (fun c => c.numeric)

/-- `categorical_feature_cols` (line 656). -/
def categoricalFeatureCols (cols : List MLCol) (tc : String) : List MLCol :=
  (featureCols cols tc).filter (fun c => ! c.numeric)

/-- `protected_features` (lines 659-660): every feature column whose
lowered name contains a protected substring. -/
def protectedFeatures (cols : List MLCol) (tc : String) : List MLCol :=
  (featureCols cols tc).filter (fun c => isProtectedName c.name)

/-- `protected_numeric` (line 662). -/
def protectedNumeric (cols : List MLCol) (tc : String) : List MLCol :=
  (protectedFeatures cols tc).filter (fun c => (numericFeatureCols cols tc).contains c)

/-- `selectable_numeric` (line 663). -/
def selectableNumeric (cols : List MLCol) (tc : String) : List MLCol :=
  (numericFeatureCols cols tc).filter (fun c => ! (protectedNumeric cols tc).contains c)

/-- The selectable features kept by `selector.get_support()` (line 673);
the boolean support mask is a parameter of the embedding (the
analysis-of-variance F-test inside `SelectKBest` is a library
computation). -/
def maskSelect (sn : List MLCol) (mask : List Bool) : List MLCol :=
  ((sn.zip mask).filter (fun p => p.2)).map (fun p => p.1)

/-- `protected_df` (lines 689-694): protected features are reported with
the sentinel score 999 and `selected = True`, `protected = True`. -/
def protectedRows (pn : List MLCol) : List ReportRow :=
  pn.map (fun c => ⟨c.name, 999, true, true⟩)

/-- `feature_scores` for the selectable features (lines 681-686); the
scores, like the mask, come from the library selector. -/
def selectableRows (sn : List MLCol) (scores : List ℚ) (mask : List Bool) :
    List ReportRow :=
  (sn.zip (scores.zip mask)).map (fun p => ⟨p.1.name, p.2.1, p.2.2, false⟩)

/-- Descending order by score, for `sort_values('score', ascending=False)`. -/
def scoreDesc (a b : ReportRow) : Prop := b.score ≤ a.score

instance : DecidableRel scoreDesc :=
  fun a b => inferInstanceAs (Decidable (b.score ≤ a.score))

/-- `pd.concat([protected_df, feature_scores]).sort_values('score',
ascending=False)` (line 696). -/
def sortReport (rows : List ReportRow) : List ReportRow :=
  List.insertionSort scoreDesc rows

/-- The feature-selection step of `enhanced_preprocessing` (lines
644-703): the outer trigger is `target_col and target_col in
df_ml.columns and len(df_ml.columns) > 50` (line 646); the inner guard is
`selectable_numeric and len(numeric_feature_cols) > 30` (line 665) — note
the count tested against 30 is that of all numeric feature columns,
protected ones included.  When selection runs, the table is reduced to
`protected_numeric + selected_selectable + categorical_feature_cols +
[target_col]` (lines 676-678) and the report is written; otherwise the
table is returned unchanged and no report exists (`none`). -/
def feature_selection (cols : List MLCol) (tcOpt : Option String)
    (scores : List ℚ) (mask : List Bool) :
    List MLCol × Option (List ReportRow) :=
  match tcOpt with
  | none => (cols, none)
  | some tc =>
      if mlHas cols tc && decide (cols.length > 50) then
        let pn := protectedNumeric cols tc
        let sn := selectableNumeric cols tc
        let cfc := categoricalFeatureCols cols tc
        if (! sn.isEmpty) && decide ((numericFeatureCols cols tc).length > 30) then
          let outCols := pn ++ maskSelect sn mask ++ cfc ++
                         cols.filter (fun c => c.name == tc)
          (outCols, some (sortReport (protectedRows pn ++ selectableRows sn scores mask)))
        else (cols, none)
      else (cols, none)

/-! ### Prediction service (`services/app/services/prediction.py`) -/

/-- The attributes of a persisted fitted scaler the prediction service
would need (`feature_names_in_`, `mean_`, `scale_`). -/
structure FittedScaler where
  feature_names_in_ : List String
  mean_ : List ℚ
  scale_ : List ℚ
deriving DecidableEq

/-- The `HardcodedScaler` of `load_scaler` (prediction.py lines 59-83):
fixed feature list, means and scales. -/
def hardcodedScaler : FittedScaler :=
  { feature_names_in_ := ["age", "bmi", "hbA1c_level", "blood_glucose_level"]
  , mean_ := [41885856/1000000, 273207671/10000000, 5527507/1000000, 13805806/100000]
  , scale_ := [2251672729/100000000, 663675023/100000000, 107066674/100000000,
               4070793251/100000000] }

/-- `load_scaler` (lines 59-87).  The docstring of the source reads
"HARDCODED VERSION ... No file dependencies!": whatever fitted-scaler
artifact the pipeline persisted on disk (modelled as the argument) is
never read; the hardcoded scaler is installed unconditionally. -/
def load_scaler (_persisted : Option FittedScaler) : FittedScaler :=
  hardcodedScaler

/-- `HardcodedScaler.transform` (lines 73-77): element-wise
`(X - mean_) / scale_`. -/
def scaler_transform (s : FittedScaler) (xs : List ℚ) : List ℚ :=
  (xs.zip (s.mean_.zip s.scale_)).map (fun p => (p.1 - p.2.1) / p.2.2)

/-- The fixed `numeric_features` list of `predict_diabetes_risk`
(line 305). -/
def predictionNumericFeatures : List String :=
  ["age", "bmi", "hbA1c_level", "blood_glucose_level"]

/-- A value of the constructed feature dictionary: a number or a Python
boolean. -/
inductive PVal where
  | num (q : ℚ)
  | boolv (b : Bool)
deriving DecidableEq

/-- Python's `str.title()` on the single-word lowered gender strings that
reach it. -/
def pyTitle (s : String) : String := pyCapitalize s

/-- The per-column default of lines 290-298: a missing gestational
feature becomes `False`, a missing gender indicator becomes the indicator
of the request's gender, anything else becomes 0. -/
def defaultFeature (col : String) (gender : String) : PVal :=
  if containsStr (pyLower col) "gestational" then .boolv false
  else if col == "gender_Female" || col == "gender_Male" then
    .boolv (col == "gender_" ++ pyTitle gender)
  else .num 0

/-- Lines 287-301 of `predict_diabetes_risk`: every schema column absent
from the constructed features is silently filled with its default, and
the row is reordered to exactly the schema — no comparison against the
scaler's feature list and no error path exists here. -/
def alignFeatures (feats : List (String × PVal)) (schema : List String)
    (gender : String) : List (String × PVal) :=
  schema.map (fun col =>
    match feats.lookup col with
    | some v => (col, v)
    | none => (col, defaultFeature col gender))

/-! ### Concrete instances used by the closed theorems -/

/-- A render function standing in for the library's float-to-text
conversion in closed statements. -/
def renderEx : ℚ → String := fun _ => "2020.0"

/-- A persisted scaler artifact different from the hardcoded one. -/
def persistedEx : FittedScaler := ⟨["height"], [0], [1]⟩

/-- A frame with one numeric feature column that is entirely missing. -/
def impFrameEx : Frame := [("x", [none, none])]

/-- A small frame exercising every imputation path: target-grouped
median for `bmi`, gender-aware fill for `gestational_history`, mode/
`Unknown` fill for `color`. -/
def impFrameWit : Frame :=
  [("Outcome", [some (.num 0), some (.num 1)]),
   ("bmi", [some (.num 20), none]),
   ("gender", [some (.str "female"), some (.str "male")]),
   ("gestational_history", [none, some (.str "Yes")]),
   ("color", [none, none])]

/-- The column `[-100, 0, 0, 0]`: its interpolated Q1 is -25, so the
capping bounds are `[-62.5, 37.5]` and -100 is capped to -62.5. -/
def capColEx : List (Option ℚ) := [some (-100), some 0, some 0, some 0]

/-- `capColEx` after one capping pass. -/
def capColExCapped : List (Option ℚ) := [some (-125/2), some 0, some 0, some 0]

/-- A column with no IQR outliers. -/
def capColNoOut : List (Option ℚ) := [some 1, some 2, some 3, some 4]

/-- A one-column numeric frame whose value 100 is an IQR outlier. -/
def oFrameEx : OFrame := [("x", [some 1, some 2, some 3, some 100])]

/-- An encoded table of 52 columns: a numeric target, the protected
numeric feature `bmi`, 31 selectable numeric features and 19 categorical
features, so that feature selection is applied. -/
def bigColsA : List MLCol :=
  ⟨"Outcome", true⟩ :: ⟨"bmi", true⟩ ::
  ((List.range 31).map (fun i => ⟨"v" ++ toString i, true⟩) ++
   (List.range 19).map (fun i => ⟨"s" ++ toString i, false⟩))

/-- Selector scores for the 31 selectable features of `bigColsA`. -/
def scoresA : List ℚ := List.replicate 31 0

/-- Selector support for `bigColsA`: keep 15 of 31. -/
def maskA : List Bool := List.replicate 15 true ++ List.replicate 16 false

/-- An encoded table of 52 columns with 10 protected numeric features,
only 21 selectable numeric features (fewer than 30) and 20 categorical
features: the total numeric feature count 31 still exceeds 30. -/
def bigColsB : List MLCol :=
  ⟨"Outcome", true⟩ ::
  ((List.range 10).map (fun i => ⟨"bmi" ++ toString i, true⟩) ++
   (List.range 21).map (fun i => ⟨"v" ++ toString i, true⟩) ++
   (List.range 20).map (fun i => ⟨"s" ++ toString i, false⟩))

/-- Selector scores for the 21 selectable features of `bigColsB`. -/
def scoresB : List ℚ := List.replicate 21 0

/-- Selector support for `bigColsB`: keep 15 of 21. -/
def maskB : List Bool := List.replicate 15 true ++ List.replicate 6 false

/-- A cleaned frame with a `bmi` column, whose feature engineering
produces the Categorical-dtype `bmi_risk_level` column. -/
def feDfEx : List DCol :=
  [⟨"bmi", .num, [some (.num 20), some (.num 32)]⟩,
   ⟨"Outcome", .num, [some (.num 0), some (.num 1)]⟩]

/-- The library scale for the `bmi` column of `feDfEx` (its population
standard deviation is exactly 6). -/
def scale6 : String → ℚ := fun _ => 6

/-- A cleaned frame with one categorical column to one-hot encode. -/
def dumDfEx : List DCol :=
  [⟨"color", .obj, [some (.str "red"), some (.str "blue")]⟩,
   ⟨"Outcome", .num, [some (.num 0), some (.num 1)]⟩]

/-! ## Theorems -/

/-! ### General lemmas -/

theorem missingCount_eq_zero {c : Column} :
    missingCount c = 0 ↔ ∀ x ∈ c, x ≠ none := by
  simp [missingCount, List.countP_eq_zero]

theorem map_eq_self_of_mem {α : Type} {f : α → α} {l : List α}
    (h : l.map f = l) : ∀ x ∈ l, f x = x := by
  induction l with
  | nil => simp
  | cons a t ih =>
      simp only [List.map_cons, List.cons.injEq] at h
      intro x hx
      rcases List.mem_cons.mp hx with hx | hx
      · simpa [hx] using h.1
      · exact ih h.2 x hx

/-! ### C5: bmi_risk_level bucket boundaries -/

/-- Claim C5 is false on the code: `pd.cut` builds right-closed bins, so
the boundary value 18.5 falls in the lower bucket `underweight`, not in
`normal` as the claim asserts. -/
theorem C5_counterexample :
    bmi_risk_label (37/2) = some "underweight" ∧
    bmi_risk_label (37/2) ≠ some "normal" := by
  have h : bmi_risk_label (37/2) = some "underweight" := by
    norm_num [bmi_risk_label, pdCut, bmiBins, bmiLabels, ltEdge, leEdge]
  exact ⟨h, by rw [h]; decide⟩

/-- Claim C5, amended: FeatureEngineer assigns `bmi_risk_level` by the
left-open right-closed buckets underweight (0, 18.5], normal (18.5, 25],
overweight (25, 30], obese_1 (30, 35], obese_2 (35, ∞); each boundary
value falls in the lower-named bucket, and a bmi at or below 0 falls in
no bucket (missing label). -/
theorem C5_amended (x : ℚ) :
    (x ≤ 0 → bmi_risk_label x = none) ∧
    (0 < x → x ≤ 37/2 → bmi_risk_label x = some "underweight") ∧
    (37/2 < x → x ≤ 25 → bmi_risk_label x = some "normal") ∧
    (25 < x → x ≤ 30 → bmi_risk_label x = some "overweight") ∧
    (30 < x → x ≤ 35 → bmi_risk_label x = some "obese_1") ∧
    (35 < x → bmi_risk_label x = some "obese_2") := by
  simp only [bmi_risk_label, pdCut, bmiBins, bmiLabels, ltEdge, leEdge, List.headD,
    Bool.and_eq_true, decide_eq_true_eq, and_true]
  refine ⟨fun h => ?_, fun h1 h2 => ?_, fun h1 h2 => ?_, fun h1 h2 => ?_,
    fun h1 h2 => ?_, fun h1 => ?_⟩
  · rw [if_neg (fun hc => absurd hc.1 (by linarith)),
      if_neg (fun hc => absurd hc.1 (by linarith)),
      if_neg (fun hc => absurd hc.1 (by linarith)),
      if_neg (fun hc => absurd hc.1 (by linarith)),
      if_neg (by linarith : ¬ 35 < x)]
  · rw [if_pos ⟨h1, h2⟩]
  · rw [if_neg (fun hc => absurd hc.2 (by linarith)), if_pos ⟨h1, h2⟩]
  · rw [if_neg (fun hc => absurd hc.2 (by linarith)),
      if_neg (fun hc => absurd hc.2 (by linarith)), if_pos ⟨h1, h2⟩]
  · rw [if_neg (fun hc => absurd hc.2 (by linarith)),
      if_neg (fun hc => absurd hc.2 (by linarith)),
      if_neg (fun hc => absurd hc.2 (by linarith)), if_pos ⟨h1, h2⟩]
  · rw [if_neg (fun hc => absurd hc.2 (by linarith)),
      if_neg (fun hc => absurd hc.2 (by linarith)),
      if_neg (fun hc => absurd hc.2 (by linarith)),
      if_neg (fun hc => absurd hc.2 (by linarith)), if_pos (by linarith : 35 < x)]

/-- Witness for C5_amended at the concrete bmi 20 (inside the normal
bucket). -/
theorem C5_witness : bmi_risk_label 20 = some "normal" :=
  (C5_amended 20).2.2.1 (by norm_num) (by norm_num)

/-! ### C2: prediction-time scaler loading and schema alignment -/

/-- Claim C2 is false on the code: `load_scaler` installs a hardcoded
scaler whatever artifact was persisted (here one with feature list
`["height"]`), and the schema-alignment loop of `predict_diabetes_risk`
silently fills a schema column absent from the request features (here
`location_Texas`) with the default 0 instead of raising. -/
theorem C2_counterexample :
    load_scaler (some persistedEx) = hardcodedScaler ∧
    hardcodedScaler.feature_names_in_ ≠ persistedEx.feature_names_in_ ∧
    alignFeatures [("age", PVal.num 40)] ["age", "location_Texas"] "male"
      = [("age", PVal.num 40), ("location_Texas", PVal.num 0)] := by
  refine ⟨rfl, by decide, by decide⟩

/-- Claim C2, amended: the prediction service does not load the persisted
scaler artifact — `load_scaler` returns the same hardcoded scaler
(features age, bmi, hbA1c_level, blood_glucose_level with fixed means and
scales) regardless of what was persisted — and a live request whose
constructed features miss a schema column never raises: the row is
aligned to the schema with the missing column silently defaulted (False
for gestational columns, the request's gender indicator for gender
columns, 0 otherwise). -/
theorem C2_amended :
    (∀ p, load_scaler p = hardcodedScaler) ∧
    (∀ feats schema gender,
      (alignFeatures feats schema gender).map Prod.fst = schema) ∧
    (∀ feats schema gender col, col ∈ schema → feats.lookup col = none →
      (col, defaultFeature col gender) ∈ alignFeatures feats schema gender) := by
  refine ⟨fun _ => rfl, ?_, ?_⟩
  · intro feats schema gender
    induction schema with
    | nil => rfl
    | cons c cs ih =>
        simp only [alignFeatures, List.map_cons] at ih ⊢
        cases h : feats.lookup c <;> simp [h, ih]
  · intro feats schema gender col hcol hlook
    refine List.mem_map.mpr ⟨col, hcol, ?_⟩
    simp [hlook]

/-- Witness for C2_amended: the mismatching schema column of
`C2_counterexample`'s input is filled with its default. -/
theorem C2_witness :
    ("location_Texas", defaultFeature "location_Texas" "male") ∈
      alignFeatures [("age", PVal.num 40)] ["age", "location_Texas"] "male" :=
  C2_amended.2.2 _ _ _ _ (by decide) (by decide)

/-! ### C8: the year and gestational-history overrides -/

/-- Claim C8 is false on the code: the `year` override is a bare
`astype(str)`, so a missing year becomes the observed literal string
`"nan"`. -/
theorem C8_counterexample :
    year_override renderEx [some 2020, none] = [some "2020.0", some "nan"] ∧
    (some "nan" : Option String) ≠ none := by
  exact ⟨rfl, by decide⟩

/-- Claim C8, amended: of the two classification overrides, only the
gestational/pregnancy-history conversion preserves missing values (its
`replace('nan', pd.NA)` turns the stringified NaN back into a missing
marker); the year conversion maps every missing value to the observed
literal string `"nan"`. -/
theorem C8_amended (render : ℚ → String) (c : List (Option ℚ)) (i : Nat)
    (h : c.get? i = some none) :
    (gestational_override render c).get? i = some none ∧
    (year_override render c).get? i = some (some "nan") := by
  simp only [List.get?_eq_getElem?, List.getElem?_map] at h ⊢
  constructor
  · simp [gestational_override, astype_str, year_override, List.getElem?_map, h]
  · simp [year_override, astype_str, List.getElem?_map, h]

/-- Witness for C8_amended at a concrete column with a missing second
row. -/
theorem C8_witness :
    (gestational_override renderEx [some 1, none]).get? 1 = some none ∧
    (year_override renderEx [some 1, none]).get? 1 = some (some "nan") :=
  C8_amended renderEx [some 1, none] 1 (by decide)

/-! ### C10: the persisted scaler is fit on the already-standardized table -/

theorem sum_map_sub_div (xs : List ℚ) (m s : ℚ) :
    (xs.map (fun x => (x - m) / s)).sum = (xs.sum - xs.length * m) / s := by
  induction xs with
  | nil => simp
  | cons a l ih =>
      simp only [List.map_cons, List.sum_cons, ih, List.length_cons]
      push_cast
      ring

theorem sum_map_sub_sq_div (xs : List ℚ) (m s : ℚ) :
    (xs.map (fun x => ((x - m) / s) ^ 2)).sum
      = (xs.map (fun x => (x - m) ^ 2)).sum / s ^ 2 := by
  induction xs with
  | nil => simp
  | cons a l ih =>
      simp only [List.map_cons, List.sum_cons, ih]
      ring

/-- Claim C10, confirmed: `enhanced_preprocessing` standardizes the
numeric columns in place (line 641) and then fits the scaler it persists
on those already-standardized columns (lines 714-716).  Consequently, for
any column with nonzero variance, the persisted mean is exactly 0 and the
persisted variance exactly 1 (so its scale, the standard deviation, is
1): the artifact records the statistics of the scaled column, not of the
raw data.  `s` is the library's fitted scale for the first pass, i.e. any
root of the column's population variance. -/
theorem C10_confirmed (xs : List ℚ) (s : ℚ) (h0 : xs ≠ []) (hs : s ≠ 0)
    (hvar : s ^ 2 = popVar xs) :
    meanQ (standardize_col xs s) = 0 ∧ popVar (standardize_col xs s) = 1 := by
  have hlen : (xs.length : ℚ) ≠ 0 := by
    exact_mod_cast Nat.pos_iff_ne_zero.mp (List.length_pos.mpr h0)
  have hmean : meanQ (standardize_col xs s) = 0 := by
    simp only [meanQ, standardize_col, List.length_map, sum_map_sub_div]
    rw [div_eq_zero_iff]
    left
    rw [div_eq_zero_iff]
    left
    field_simp [meanQ]
  refine ⟨hmean, ?_⟩
  have hvarne : popVar xs ≠ 0 := by
    rw [← hvar]
    exact pow_ne_zero 2 hs
  simp only [popVar, standardize_col, List.length_map, List.map_map, hmean]
  have hcomp : ((fun x => (x - meanQ (xs.map fun x => (x - meanQ xs) / s)) ^ 2) ∘
      fun x => (x - meanQ xs) / s) = fun x => ((x - meanQ xs) / s) ^ 2 := by
    funext x
    rw [show meanQ (xs.map fun x => (x - meanQ xs) / s)
          = meanQ (standardize_col xs s) from rfl, hmean]
    simp [Function.comp]
  rw [hcomp, sum_map_sub_sq_div]
  rw [div_div, mul_comm, ← div_div, ← popVar]
  rw [← hvar]
  exact div_self (pow_ne_zero 2 hs)

/-- Witness for C10_confirmed at the concrete column `[0, 2]`, whose
population variance is exactly 1 (scale 1). -/
theorem C10_witness :
    meanQ (standardize_col [0, 2] 1) = 0 ∧ popVar (standardize_col [0, 2] 1) = 1 :=
  C10_confirmed [0, 2] 1 (by simp) one_ne_zero
    (by norm_num [popVar, meanQ])

/-! ### C9: contents of the Outlier Records -/

theorem outlierRecord_go (len0 : Nat) (method : String) (m : ℚ) (col : String) :
    ∀ (cols : List String) (d : OFrame), col ∈ cols →
    ∃ r, (col, r) ∈ (handle_outliers_go len0 method m d cols).2 ∧
      r.map Prod.fst = ["outlier_count", "outlier_percentage", "method_applied"] ∧
      r.lookup "lower_bound" = none ∧ r.lookup "upper_bound" = none := by
  intro cols
  induction cols with
  | nil => intro d h; simp at h
  | cons c rest ih =>
      intro d hmem
      rcases List.mem_cons.mp hmem with h | h
      · subst h
        exact ⟨_, List.mem_cons_self _ _, rfl, rfl, rfl⟩
      · obtain ⟨r, hr, hkeys, hlb, hub⟩ := ih _ h
        exact ⟨r, List.mem_cons_of_mem _ hr, hkeys, hlb, hub⟩

/-- Claim C9, amended: `handle_outliers` produces one Outlier Record for
every listed numeric column, whether or not any outlier was found, but
each record holds only the outlier count, the outlier percentage and the
method applied — the computed lower/upper bounds are not part of the
record (they exist only inside the capping branch and in the separate
EDA report). -/
theorem C9_amended (df : OFrame) (cols : List String) (method : String) (m : ℚ)
    (col : String) (h : col ∈ cols) :
    ∃ r, (col, r) ∈ (handle_outliers df cols method m).2 ∧
      r.map Prod.fst = ["outlier_count", "outlier_percentage", "method_applied"] ∧
      r.lookup "lower_bound" = none ∧ r.lookup "upper_bound" = none :=
  outlierRecord_go (rowCount df) method m col cols df h

/-- Claim C9 is false as stated: on a concrete column with one outlier,
the produced record has exactly the keys outlier_count,
outlier_percentage, method_applied, and no lower/upper bound entry. -/
theorem C9_counterexample :
    ((handle_outliers oFrameEx ["x"] "cap" (3/2)).2.lookup "x").map
        (fun r => (r.map Prod.fst, r.lookup "lower_bound", r.lookup "upper_bound"))
      = some (["outlier_count", "outlier_percentage", "method_applied"],
              none, none) := rfl

/-- Witness for C9_amended on the concrete one-column frame. -/
theorem C9_witness :
    ∃ r, ("x", r) ∈ (handle_outliers oFrameEx ["x"] "cap" (3/2)).2 ∧
      r.map Prod.fst = ["outlier_count", "outlier_percentage", "method_applied"] ∧
      r.lookup "lower_bound" = none ∧ r.lookup "upper_bound" = none :=
  C9_amended oFrameEx ["x"] "cap" (3/2) "x" (by decide)

/-! ### C6: when feature selection is applied -/

/-- Claim C6, amended: FeatureSelector runs only when a target column is
present in the encoded table and the column count exceeds 50 — but even
then, selection is applied unless there is no selectable numeric column
at all or the TOTAL numeric feature count (protected ones included) is at
most 30.  The 30-column guard of line 665 tests
`len(numeric_feature_cols)`, not the selectable count, so selection can
run with fewer than 30 selectable columns.  When selection is skipped the
table is returned unchanged and no report is produced. -/
theorem C6_amended (cols : List MLCol) (tcOpt : Option String) (scores : List ℚ)
    (mask : List Bool) :
    ((feature_selection cols tcOpt scores mask).2.isSome = true ↔
      ∃ tc, tcOpt = some tc ∧ mlHas cols tc = true ∧ 50 < cols.length ∧
        selectableNumeric cols tc ≠ [] ∧ 30 < (numericFeatureCols cols tc).length) ∧
    ((feature_selection cols tcOpt scores mask).2 = none →
      (feature_selection cols tcOpt scores mask).1 = cols) := by
  cases tcOpt with
  | none => simp [feature_selection]
  | some tc =>
      simp only [feature_selection]
      by_cases h1 : mlHas cols tc && decide (50 < cols.length)
      · rw [if_pos h1]
        rw [Bool.and_eq_true] at h1
        obtain ⟨h1a, h1b⟩ := h1
        by_cases h2 : (! (selectableNumeric cols tc).isEmpty) &&
            decide (30 < (numericFeatureCols cols tc).length)
        · rw [if_pos h2]
          rw [Bool.and_eq_true] at h2
          obtain ⟨h2a, h2b⟩ := h2
          constructor
          · constructor
            · intro _
              refine ⟨tc, rfl, h1a, by simpa using h1b, ?_, by simpa using h2b⟩
              intro hnil
              rw [Bool.not_eq_true', List.isEmpty_eq_false] at h2a
              exact h2a hnil
            · intro _; rfl
          · intro hnone; simp at hnone
        · rw [if_neg h2]
          constructor
          · constructor
            · intro hfalse; exact absurd hfalse (by simp)
            · rintro ⟨tc', heq, _, _, hne, h30⟩
              cases heq
              refine absurd ?_ h2
              simp only [Bool.and_eq_true, Bool.not_eq_true', List.isEmpty_eq_false,
                decide_eq_true_eq]
              exact ⟨hne, h30⟩
          · intro _; rfl
      · rw [if_neg h1]
        constructor
        · constructor
          · intro hfalse; exact absurd hfalse (by simp)
          · rintro ⟨tc', heq, hhas, h50, _, _⟩
            cases heq
            refine absurd ?_ h1
            simp only [Bool.and_eq_true, decide_eq_true_eq]
            exact ⟨hhas, h50⟩
        · intro _; rfl

/-- Claim C6 is false in its second half: in the concrete 52-column table
`bigColsB` there are only 21 selectable numeric features (fewer than 30),
yet selection is applied, because the code's guard tests the total
numeric feature count (31 > 30). -/
theorem C6_counterexample :
    (selectableNumeric bigColsB "Outcome").length = 21 ∧ 21 < 30 ∧
    (feature_selection bigColsB (some "Outcome") scoresB maskB).2.isSome = true := by
  refine ⟨by decide, by decide, by decide⟩

/-- Witness for C6_amended: when no target is supplied, no report is
produced and the table is unchanged. -/
theorem C6_witness :
    (feature_selection bigColsB none scoresB maskB).1 = bigColsB :=
  (C6_amended bigColsB none scoresB maskB).2 rfl

/-! ### C3: protected features under feature selection -/

/-- Claim C3, confirmed: whenever feature selection is applied (a report
exists), every numeric feature column whose name contains a protected
substring is retained in the output table, and the report contains a row
for it with `selected = true` and `protected = true` (sentinel score 999)
— independently of the selector's scores and support mask. -/
theorem C3_confirmed (cols : List MLCol) (tc : String) (scores : List ℚ)
    (mask : List Bool) (col : MLCol)
    (happ : (feature_selection cols (some tc) scores mask).2.isSome = true)
    (hmem : col ∈ cols) (hnum : col.numeric = true)
    (hprot : isProtectedName col.name = true) (hntc : col.name ≠ tc) :
    col ∈ (feature_selection cols (some tc) scores mask).1 ∧
    ∃ row ∈ (feature_selection cols (some tc) scores mask).2.getD [],
      row.feature = col.name ∧ row.selected = true ∧ row.protFlag = true := by
  simp only [feature_selection] at happ ⊢
  split_ifs at happ ⊢ with h1 h2
  · have hfc : col ∈ featureCols cols tc :=
      List.mem_filter.mpr ⟨hmem, by simpa using hntc⟩
    have hnfc : col ∈ numericFeatureCols cols tc :=
      List.mem_filter.mpr ⟨hfc, hnum⟩
    have hpf : col ∈ protectedFeatures cols tc :=
      List.mem_filter.mpr ⟨hfc, hprot⟩
    have hpn : col ∈ protectedNumeric cols tc :=
      List.mem_filter.mpr ⟨hpf, List.elem_iff.mpr hnfc⟩
    constructor
    · exact List.mem_append_left _ (List.mem_append_left _ (List.mem_append_left _ hpn))
    · refine ⟨⟨col.name, 999, true, true⟩, ?_, rfl, rfl, rfl⟩
      simp only [Option.getD_some]
      refine (List.perm_insertionSort scoreDesc _).mem_iff.mpr ?_
      exact List.mem_append_left _ (List.mem_map.mpr ⟨col, hpn, rfl⟩)
  · simp at happ
  · simp at happ

/-- Witness for C3_confirmed: on the 52-column table `bigColsA` the
protected numeric feature `bmi` is retained and reported selected. -/
theorem C3_witness :
    (⟨"bmi", true⟩ : MLCol) ∈ (feature_selection bigColsA (some "Outcome") scoresA maskA).1 ∧
    ∃ row ∈ (feature_selection bigColsA (some "Outcome") scoresA maskA).2.getD [],
      row.feature = "bmi" ∧ row.selected = true ∧ row.protFlag = true :=
  C3_confirmed bigColsA "Outcome" scoresA maskA ⟨"bmi", true⟩
    (by decide) (by decide) (by decide) (by decide) (by decide)

/-! ### C4: dtypes and one-hot values in the model-ready table -/

set_option allowUnsafeReducibility true in
attribute [local semireducible] Rat.add Rat.sub Rat.mul Rat.inv in
theorem C4_counterexample :
    ((dget (fePlusML feDfEx ["bmi"] [] scale6) "bmi_risk_level").map
        (fun c => (c.dt, c.cells)))
      = some (Dt.cat, [some (.str "normal"), some (.str "obese_1")]) ∧
    Dt.cat ≠ Dt.num ∧ "bmi_risk_level" ≠ "Outcome" := by decide

theorem C4_amended (df : List DCol) (ncols ccols : List String) (scaleOf : String → ℚ)
    (dc : DCol) (hmem : dc ∈ mlPrep df ncols ccols scaleOf)
    (hnew : (dnames df).contains dc.name = false)
    (hnoscale : (finalNumericCols (getDummiesDf df (categoricalForEncoding df ccols))
        ncols).contains dc.name = false) :
    dc.dt = Dt.num ∧ ∀ cell ∈ dc.cells, cell = some (.num 0) ∨ cell = some (.num 1) := by
  simp only [mlPrep] at hmem
  have hdfml : dc ∈ getDummiesDf df (categoricalForEncoding df ccols) := by
    by_cases he : (finalNumericCols (getDummiesDf df (categoricalForEncoding df ccols))
        ncols).isEmpty
    · rwa [scaleStep, if_pos he] at hmem
    · rw [scaleStep, if_neg he] at hmem
      obtain ⟨pre, hpre, heq⟩ := List.mem_map.mp hmem
      by_cases hc : (finalNumericCols (getDummiesDf df (categoricalForEncoding df ccols))
          ncols).contains pre.name
      · rw [if_pos hc] at heq
        have hname : dc.name = pre.name := by rw [← heq]
        rw [hname] at hnoscale
        rw [hc] at hnoscale
        cases hnoscale
      · rw [if_neg hc] at heq
        rwa [← heq]
  rcases List.mem_append.mp hdfml with hkeep | hdum
  · exfalso
    have hdf : dc ∈ df := List.mem_of_mem_filter hkeep
    have hnm : dc.name ∈ dnames df := List.mem_map.mpr ⟨dc, hdf, rfl⟩
    have := List.elem_iff.mpr hnm
    rw [show (dnames df).elem dc.name = (dnames df).contains dc.name from rfl, hnew] at this
    cases this
  · obtain ⟨cn, hcn, hdc⟩ := List.mem_flatMap.mp hdum
    rcases h : dget df cn with _ | c
    · rw [dummiesFor, h] at hdc
      simp at hdc
    · rw [dummiesFor, h] at hdc
      obtain ⟨v, _, hdceq⟩ := List.mem_map.mp hdc
      subst hdceq
      refine ⟨rfl, ?_⟩
      intro cell hcell
      obtain ⟨cell0, _, hcelleq⟩ := List.mem_map.mp hcell
      by_cases hcv : cell0 == some v
      · right; rw [← hcelleq, if_pos hcv]
      · left; rw [← hcelleq, if_neg hcv]

theorem C4_witness :
    (⟨"color_blue", Dt.num, [some (.num 0), some (.num 1)]⟩ : DCol).dt = Dt.num ∧
    ∀ cell ∈ (⟨"color_blue", Dt.num, [some (.num 0), some (.num 1)]⟩ : DCol).cells,
      cell = some (.num 0) ∨ cell = some (.num 1) :=
  C4_amended dumDfEx [] ["color"] scale6 _ (by decide) (by decide) (by decide)

/-! ### C7: outlier capping is not idempotent -/

theorem sortedQ_getD_le (s : List ℚ) (hs : s.Sorted (· ≤ ·)) {i k : Nat}
    (hik : i ≤ k) (hk : k < s.length) : s.getD i 0 ≤ s.getD k 0 := by
  have hi : i < s.length := lt_of_le_of_lt hik hk
  rw [List.getD_eq_getElem?_getD, List.getElem?_eq_getElem hi, Option.getD_some]
  rw [List.getD_eq_getElem?_getD, List.getElem?_eq_getElem hk, Option.getD_some]
  rcases eq_or_lt_of_le hik with rfl | hlt
  · exact le_refl _
  · exact List.pairwise_iff_get.mp hs ⟨i, hi⟩ ⟨k, hk⟩ hlt

theorem getD_eq_getD_of_lt (s : List ℚ) (d d' : ℚ) {i : Nat} (hi : i < s.length) :
    s.getD i d = s.getD i d' := by
  rw [List.getD_eq_getElem?_getD, List.getElem?_eq_getElem hi, Option.getD_some]
  rw [List.getD_eq_getElem?_getD, List.getElem?_eq_getElem hi, Option.getD_some]

theorem quantileOfSorted_mono (s : List ℚ) (hs : s.Sorted (· ≤ ·)) (hne : s ≠ [])
    {q q' : ℚ} (h0 : 0 ≤ q) (hqq : q ≤ q') (h1 : q' ≤ 1) :
    quantileOfSorted s q ≤ quantileOfSorted s q' := by
  have hnpos : 0 < s.length := List.length_pos.mpr hne
  have hn1 : (1 : ℚ) ≤ (s.length : ℚ) := by exact_mod_cast hnpos
  simp only [quantileOfSorted]
  set h : ℚ := q * ((s.length : ℚ) - 1) with hh_def
  set h' : ℚ := q' * ((s.length : ℚ) - 1) with hh'_def
  set j : ℕ := (⌊h⌋).toNat with hj_def
  set j' : ℕ := (⌊h'⌋).toNat with hj'_def
  have hnn : (0 : ℚ) ≤ (s.length : ℚ) - 1 := by linarith
  have hh0 : 0 ≤ h := mul_nonneg h0 hnn
  have hh0' : 0 ≤ h' := mul_nonneg (h0.trans hqq) hnn
  have hhh : h ≤ h' := mul_le_mul_of_nonneg_right hqq hnn
  have hh1 : h' ≤ (s.length : ℚ) - 1 := by
    calc h' ≤ 1 * ((s.length : ℚ) - 1) := mul_le_mul_of_nonneg_right h1 hnn
    _ = (s.length : ℚ) - 1 := one_mul _
  have hfl0 : 0 ≤ ⌊h⌋ := Int.floor_nonneg.mpr hh0
  have hfl0' : 0 ≤ ⌊h'⌋ := Int.floor_nonneg.mpr hh0'
  have hjle : (j : ℚ) ≤ h := by
    have hx : ((⌊h⌋.toNat : ℤ) : ℚ) ≤ h := by
      rw [Int.toNat_of_nonneg hfl0]; exact Int.floor_le h
    exact_mod_cast hx
  have hjle' : (j' : ℚ) ≤ h' := by
    have hx : ((⌊h'⌋.toNat : ℤ) : ℚ) ≤ h' := by
      rw [Int.toNat_of_nonneg hfl0']; exact Int.floor_le h'
    exact_mod_cast hx
  have hjlt : h < (j : ℚ) + 1 := by
    have hx : h < ((⌊h⌋.toNat : ℤ) : ℚ) + 1 := by
      rw [Int.toNat_of_nonneg hfl0]; exact Int.lt_floor_add_one h
    exact_mod_cast hx
  have hjj : j ≤ j' := Int.toNat_le_toNat (Int.floor_mono hhh)
  have hj'lt : j' < s.length := by
    have h2 : ⌊h'⌋ ≤ (s.length : ℤ) - 1 := by
      have h3 := Int.floor_mono hh1
      rwa [show ((s.length : ℚ) - 1) = (((s.length : ℤ) - 1 : ℤ) : ℚ) by push_cast; ring,
        Int.floor_intCast] at h3
    omega
  have hjlt_len : j < s.length := lt_of_le_of_lt hjj hj'lt
  rcases eq_or_lt_of_le hjj with heq | hlt
  · rw [← heq]
    have hba : s.getD j 0 ≤ s.getD (j + 1) (s.getD j 0) := by
      by_cases hj1 : j + 1 < s.length
      · rw [getD_eq_getD_of_lt s _ 0 hj1]
        exact sortedQ_getD_le s hs (Nat.le_succ j) hj1
      · rw [show s.getD (j + 1) (s.getD j 0) = s.getD j 0 from by
          rw [List.getD_eq_getElem?_getD, List.getElem?_eq_none (by omega), Option.getD_none]]
    have hγ : h - (j : ℚ) ≤ h' - (j : ℚ) := by linarith
    have := mul_le_mul_of_nonneg_right hγ (sub_nonneg.mpr hba)
    linarith
  · have hj1lt : j + 1 < s.length := by omega
    have hb : s.getD (j + 1) (s.getD j 0) = s.getD (j + 1) 0 :=
      getD_eq_getD_of_lt s _ 0 hj1lt
    have hba : s.getD j 0 ≤ s.getD (j + 1) 0 :=
      sortedQ_getD_le s hs (Nat.le_succ j) hj1lt
    have hvq_le : s.getD j 0 + (h - (j : ℚ)) * (s.getD (j + 1) (s.getD j 0) - s.getD j 0)
        ≤ s.getD (j + 1) 0 := by
      rw [hb]
      have hγ1 : h - (j : ℚ) ≤ 1 := by linarith
      have := mul_le_of_le_one_left (sub_nonneg.mpr hba) hγ1
      linarith
    have hmid : s.getD (j + 1) 0 ≤ s.getD j' 0 :=
      sortedQ_getD_le s hs (by omega) hj'lt
    have hvq'_ge : s.getD j' 0
        ≤ s.getD j' 0 + (h' - (j' : ℚ)) * (s.getD (j' + 1) (s.getD j' 0) - s.getD j' 0) := by
      have hba' : s.getD j' 0 ≤ s.getD (j' + 1) (s.getD j' 0) := by
        by_cases hj1' : j' + 1 < s.length
        · rw [getD_eq_getD_of_lt s _ 0 hj1']
          exact sortedQ_getD_le s hs (Nat.le_succ j') hj1'
        · rw [show s.getD (j' + 1) (s.getD j' 0) = s.getD j' 0 from by
            rw [List.getD_eq_getElem?_getD, List.getElem?_eq_none (by omega), Option.getD_none]]
      have := mul_nonneg (by linarith : (0:ℚ) ≤ h' - (j' : ℚ)) (sub_nonneg.mpr hba')
      linarith
    linarith

theorem seriesQ1_le_Q3 (c : List (Option ℚ)) {v1 v3 : ℚ}
    (h1 : seriesQuantile c (1/4) = some v1)
    (h3 : seriesQuantile c (3/4) = some v3) : v1 ≤ v3 := by
  simp only [seriesQuantile] at h1 h3
  by_cases he : (c.filterMap id).isEmpty
  · rw [if_pos he] at h1; cases h1
  · rw [if_neg he] at h1 h3
    injection h1 with h1
    injection h3 with h3
    rw [← h1, ← h3]
    apply quantileOfSorted_mono
    · exact List.sorted_insertionSort _ _
    · intro hnil
      have hperm := List.perm_insertionSort (fun a b : ℚ => a ≤ b) (c.filterMap id)
      rw [show sortQ (c.filterMap id) = List.insertionSort (fun a b : ℚ => a ≤ b)
        (c.filterMap id) from rfl] at hnil
      rw [hnil] at hperm
      exact he (by simp [List.isEmpty_iff, hperm.symm.eq_nil])
    · norm_num
    · norm_num
    · norm_num

/-- Claim C7, amended: one capping pass over a column is the identity
exactly when it detects no outlier (in particular a pass that finds
nothing changes nothing, and a pass that finds an outlier always moves
it).  Capping is NOT idempotent in general: the second pass recomputes
the interpolated quantiles on the capped data, which can produce strictly
tighter bounds and cap further (see the counterexample). -/
theorem C7_amended (c : List (Option ℚ)) (m : ℚ) (hm : 0 ≤ m) :
    capColumn c m = c ↔ (detect_outliers_iqr c m).count true = 0 := by
  constructor
  · intro hcap
    by_contra hcnt
    have hpos : 0 < (detect_outliers_iqr c m).count true := Nat.pos_of_ne_zero hcnt
    have hmem : true ∈ detect_outliers_iqr c m := List.count_pos_iff.mp hpos
    rcases hq1 : seriesQuantile c (1/4) with _ | q1 <;>
      rcases hq3 : seriesQuantile c (3/4) with _ | q3
    · simp only [detect_outliers_iqr, hq1, hq3] at hmem; simp at hmem
    · simp only [detect_outliers_iqr, hq1, hq3] at hmem; simp at hmem
    · simp only [detect_outliers_iqr, hq1, hq3] at hmem; simp at hmem
    · have hq13 : q1 ≤ q3 := seriesQ1_le_Q3 c hq1 hq3
      have hprod : 0 ≤ m * (q3 - q1) := mul_nonneg hm (by linarith)
      simp only [detect_outliers_iqr, hq1, hq3] at hmem
      obtain ⟨x, hx, hgx⟩ := List.mem_map.mp hmem
      rcases x with _ | v
      · simp at hgx
      · simp only [Bool.or_eq_true, decide_eq_true_eq] at hgx
        rw [capColumn, if_pos hpos] at hcap
        simp only [capCells, hq1, hq3] at hcap
        rw [List.map_map] at hcap
        have hfix := map_eq_self_of_mem hcap (some v) hx
        simp only [Function.comp, Option.map_some'] at hfix
        injection hfix with hfix
        rcases hgx with hlo | hhi
        · rw [if_pos hlo] at hfix
          by_cases hLU : q1 - m * (q3 - q1) > q3 + m * (q3 - q1)
          · linarith
          · rw [if_neg hLU] at hfix
            linarith
        · have hnlo : ¬ v < q1 - m * (q3 - q1) := by linarith
          rw [if_neg hnlo, if_pos hhi] at hfix
          linarith
  · intro hcnt
    rw [capColumn, if_neg (by omega)]

set_option allowUnsafeReducibility true in
attribute [local semireducible] Rat.add Rat.sub Rat.mul Rat.inv in
theorem C7_counterexample :
    capColumn capColEx (3/2) = capColExCapped ∧
    seriesQuantile capColExCapped (1/4) ≠ seriesQuantile capColEx (1/4) ∧
    capColumn capColExCapped (3/2) ≠ capColExCapped := by decide

set_option allowUnsafeReducibility true in
attribute [local semireducible] Rat.add Rat.sub Rat.mul Rat.inv in
theorem C7_witness : capColumn capColNoOut (3/2) = capColNoOut :=
  (C7_amended capColNoOut (3/2) (by norm_num)).mpr (by decide)

/-! ### C1: the imputation contract -/

theorem updateCol_fst (n : String) (c : Column) (p : String × Column) :
    (if p.1 == n then (p.1, c) else p).1 = p.1 := by
  by_cases h : p.1 == n <;> simp [h]

theorem getCol_updateCol_ne (f : Frame) (n x : String) (c : Column) (hx : x ≠ n) :
    getCol (updateCol f n c) x = getCol f x := by
  induction f with
  | nil => rfl
  | cons p t ih =>
      simp only [updateCol, List.map_cons] at *
      by_cases hpx : p.1 == x
      · have hpn : (p.1 == n) = false := by
          rw [beq_eq_false_iff_ne]
          intro hcon
          exact hx (by rw [← (beq_iff_eq).mp hpx, hcon])
        simp [getCol, List.find?_cons, hpn, hpx]
      · have h2 : ((if p.1 == n then (p.1, c) else p).1 == x) = false := by
          rw [updateCol_fst]
          simpa using hpx
        simp only [getCol, List.find?_cons, h2]
        simp only [getCol, List.find?_cons] at ih
        simpa [hpx] using ih

theorem getCol_updateCol_self (f : Frame) (n : String) (c : Column)
    (h : hasCol f n = true) : getCol (updateCol f n c) n = c := by
  induction f with
  | nil => simp [hasCol] at h
  | cons p t ih =>
      simp only [updateCol, List.map_cons]
      by_cases hpn : p.1 == n
      · simp [getCol, List.find?_cons, hpn]
      · have h2 : ((if p.1 == n then (p.1, c) else p).1 == n) = false := by
          rw [updateCol_fst]
          simpa using hpn
        simp only [getCol, List.find?_cons, h2]
        have ht : hasCol t n = true := by
          simp only [hasCol, List.any_cons, hpn, Bool.false_or] at h
          exact h
        simpa [getCol, updateCol] using ih ht

theorem hasCol_updateCol (f : Frame) (n x : String) (c : Column) :
    hasCol (updateCol f n c) x = hasCol f x := by
  induction f with
  | nil => rfl
  | cons p t ih =>
      simp only [updateCol, List.map_cons, hasCol, List.any_cons] at *
      rw [updateCol_fst]
      simpa [updateCol] using congrArg (fun b => (p.1 == x) || b) ih

theorem hasCol_of_getCol_ne_nil (f : Frame) (n : String) (h : getCol f n ≠ []) :
    hasCol f n = true := by
  by_contra hcon
  apply h
  have hany : f.any (fun p => p.1 == n) = false := by
    cases hcase : f.any (fun p => p.1 == n)
    · rfl
    · exact absurd hcase hcon
  have hfind : f.find? (fun p => p.1 == n) = none := by
    rw [List.find?_eq_none]
    intro p hp
    have := List.any_eq_false.mp hany p hp
    simpa using this
  simp [getCol, hfind]

theorem missingCount_fillna_some (c : Column) (v : Val) :
    missingCount (fillna c (some v)) = 0 := by
  rw [missingCount_eq_zero]
  intro x hx
  obtain ⟨y, _, hyx⟩ := List.mem_map.mp hx
  rw [← hyx]
  rcases y with _ | a
  · exact fun hcon => Option.noConfusion hcon
  · exact fun hcon => Option.noConfusion hcon

theorem medianQ_isSome (xs : List ℚ) (h : xs ≠ []) : ∃ mv, medianQ xs = some mv := by
  have hlen : (sortQ xs).length = xs.length :=
    (List.perm_insertionSort (fun a b : ℚ => a ≤ b) xs).length_eq
  have hn : (sortQ xs).length ≠ 0 := by
    rw [hlen]
    simpa using (List.length_pos.mpr h).ne'
  rw [medianQ]
  simp only [hn, if_false]
  by_cases hodd : (sortQ xs).length % 2 = 1 <;> simp [hodd]

theorem missingCount_groupMedianTransform (c t : Column)
    (ht : ∀ x ∈ t, x ≠ none) (hc : cellNums c ≠ []) :
    missingCount (groupMedianTransform c t) = 0 := by
  rw [missingCount_eq_zero]
  intro y hy
  obtain ⟨p, hp, hpy⟩ := List.mem_map.mp hy
  rw [← hpy]
  obtain ⟨a, b⟩ := p
  have ht2 : b ≠ none := ht b (List.of_mem_zip hp).2
  rcases b with _ | k
  · exact absurd rfl ht2
  · rcases a with _ | v
    · dsimp only
      rcases hgm : medianQ (targetGroupNums c t k) with _ | gm
      · dsimp only
        obtain ⟨mv, hmv⟩ := medianQ_isSome (cellNums c) hc
        rw [hmv]
        exact fun hcon => Option.noConfusion hcon
      · exact fun hcon => Option.noConfusion hcon
    · exact fun hcon => Option.noConfusion hcon

theorem missingCount_genderAwareFill (c g : Column)
    (hg : ∀ x ∈ g, x ≠ none) : missingCount (genderAwareFill c g) = 0 := by
  rw [missingCount_eq_zero]
  intro y hy
  obtain ⟨p, hp, hpy⟩ := List.mem_map.mp hy
  rw [← hpy]
  obtain ⟨a, b⟩ := p
  rcases a with _ | v
  · have hb : b ≠ none := hg b (List.of_mem_zip hp).2
    rcases b with _ | gv
    · exact absurd rfl hb
    · dsimp only
      by_cases hmale : isMaleVal gv
      · rw [if_pos hmale]
        exact fun hcon => Option.noConfusion hcon
      · rw [if_neg hmale]
        exact fun hcon => Option.noConfusion hcon
  · exact fun hcon => Option.noConfusion hcon

theorem imputeNumericCol_other (f : Frame) (tcOpt : Option String) (n x : String)
    (hx : x ≠ n) : getCol (imputeNumericCol f tcOpt n) x = getCol f x := by
  rw [imputeNumericCol.eq_def]
  by_cases h0 : missingCount (getCol f n) = 0
  · rw [if_pos h0]
  · rw [if_neg h0]
    exact getCol_updateCol_ne f n x _ hx

theorem imputeCategoricalCol_other (f : Frame) (n x : String)
    (hx : x ≠ n) : getCol (imputeCategoricalCol f n) x = getCol f x := by
  rw [imputeCategoricalCol]
  by_cases h0 : missingCount (getCol f n) = 0
  · rw [if_pos h0]
  · rw [if_neg h0]
    exact getCol_updateCol_ne f n x _ hx

theorem hasCol_imputeNumericCol (f : Frame) (tcOpt : Option String) (n x : String) :
    hasCol (imputeNumericCol f tcOpt n) x = hasCol f x := by
  rw [imputeNumericCol.eq_def]
  by_cases h0 : missingCount (getCol f n) = 0
  · rw [if_pos h0]
  · rw [if_neg h0]
    exact hasCol_updateCol f n x _

theorem hasCol_imputeCategoricalCol (f : Frame) (n x : String) :
    hasCol (imputeCategoricalCol f n) x = hasCol f x := by
  rw [imputeCategoricalCol]
  by_cases h0 : missingCount (getCol f n) = 0
  · rw [if_pos h0]
  · rw [if_neg h0]
    exact hasCol_updateCol f n x _

theorem genderColName_imputeNumericCol (f : Frame) (tcOpt : Option String) (n : String) :
    genderColName (imputeNumericCol f tcOpt n) = genderColName f := by
  rw [genderColName, genderColName, hasCol_imputeNumericCol, hasCol_imputeNumericCol]

theorem genderColName_imputeCategoricalCol (f : Frame) (n : String) :
    genderColName (imputeCategoricalCol f n) = genderColName f := by
  rw [genderColName, genderColName, hasCol_imputeCategoricalCol, hasCol_imputeCategoricalCol]

theorem imputeNumericCol_fills (f : Frame) (tcOpt : Option String) (n : String)
    (hnum : cellNums (getCol f n) ≠ [])
    (htgt : ∀ tc, tcOpt = some tc → missingCount (getCol f tc) = 0) :
    missingCount (getCol (imputeNumericCol f tcOpt n) n) = 0 := by
  rw [imputeNumericCol.eq_def]
  by_cases h0 : missingCount (getCol f n) = 0
  · rw [if_pos h0]; exact h0
  · rw [if_neg h0]
    have hne : getCol f n ≠ [] := by
      intro hnil
      rw [hnil] at hnum
      exact hnum rfl
    have hhas : hasCol f n = true := hasCol_of_getCol_ne_nil f n hne
    rw [getCol_updateCol_self _ _ _ hhas]
    by_cases hmed : medical_features.contains n
    · rw [if_pos hmed]
      cases tcOpt with
      | none =>
          dsimp only
          obtain ⟨mv, hmv⟩ := medianQ_isSome (cellNums (getCol f n)) hnum
          rw [hmv]
          exact missingCount_fillna_some _ _
      | some tc =>
          dsimp only
          by_cases htc : hasCol f tc
          · rw [if_pos htc]
            refine missingCount_groupMedianTransform _ _ ?_ hnum
            exact missingCount_eq_zero.mp (htgt tc rfl)
          · rw [if_neg htc]
            obtain ⟨mv, hmv⟩ := medianQ_isSome (cellNums (getCol f n)) hnum
            rw [hmv]
            exact missingCount_fillna_some _ _
    · rw [if_neg hmed]
      obtain ⟨mv, hmv⟩ := medianQ_isSome (cellNums (getCol f n)) hnum
      rw [hmv]
      exact missingCount_fillna_some _ _

theorem imputeCategoricalCol_fills (f : Frame) (n : String)
    (hgen : ∀ gc, genderColName f = some gc → missingCount (getCol f gc) = 0) :
    missingCount (getCol (imputeCategoricalCol f n) n) = 0 := by
  rw [imputeCategoricalCol]
  by_cases h0 : missingCount (getCol f n) = 0
  · rw [if_pos h0]; exact h0
  · rw [if_neg h0]
    have hne : getCol f n ≠ [] := by
      intro hnil
      rw [hnil] at h0
      exact h0 rfl
    have hhas : hasCol f n = true := hasCol_of_getCol_ne_nil f n hne
    rw [getCol_updateCol_self _ _ _ hhas]
    by_cases hgl : genderLinkedCols.contains (pyLower n)
    · rw [if_pos hgl]
      rcases hgc : genderColName f with _ | gc
      · exact missingCount_fillna_some _ _
      · refine missingCount_genderAwareFill _ _ ?_
        exact missingCount_eq_zero.mp (hgen gc hgc)
    · rw [if_neg hgl]
      rcases hm : modeVal? (getCol f n) with _ | mv
      · exact missingCount_fillna_some _ _
      · exact missingCount_fillna_some _ _

theorem imputeNumericCol_keeps_zero (f : Frame) (tcOpt : Option String) (y x : String)
    (h : missingCount (getCol f x) = 0) :
    missingCount (getCol (imputeNumericCol f tcOpt y) x) = 0 := by
  by_cases hxy : x = y
  · subst hxy
    rw [imputeNumericCol.eq_def, if_pos h]
    exact h
  · rw [imputeNumericCol_other f tcOpt y x hxy]
    exact h

theorem imputeCategoricalCol_keeps_zero (f : Frame) (y x : String)
    (h : missingCount (getCol f x) = 0) :
    missingCount (getCol (imputeCategoricalCol f y) x) = 0 := by
  by_cases hxy : x = y
  · subst hxy
    rw [imputeCategoricalCol, if_pos h]
    exact h
  · rw [imputeCategoricalCol_other f y x hxy]
    exact h

theorem numFold_keeps_zero (tcOpt : Option String) (l : List String) :
    ∀ (f : Frame) (x : String), missingCount (getCol f x) = 0 →
    missingCount (getCol (l.foldl (fun d col => imputeNumericCol d tcOpt col) f) x) = 0 := by
  induction l with
  | nil => intro f x h; exact h
  | cons y ys ih =>
      intro f x h
      exact ih _ x (imputeNumericCol_keeps_zero f tcOpt y x h)

theorem catFold_keeps_zero (l : List String) :
    ∀ (f : Frame) (x : String), missingCount (getCol f x) = 0 →
    missingCount (getCol (l.foldl (fun d col => imputeCategoricalCol d col) f) x) = 0 := by
  induction l with
  | nil => intro f x h; exact h
  | cons y ys ih =>
      intro f x h
      exact ih _ x (imputeCategoricalCol_keeps_zero f y x h)

theorem numFold_other (tcOpt : Option String) (l : List String) :
    ∀ (f : Frame) (x : String), x ∉ l →
    getCol (l.foldl (fun d col => imputeNumericCol d tcOpt col) f) x = getCol f x := by
  induction l with
  | nil => intro f x _; rfl
  | cons y ys ih =>
      intro f x hx
      have hxy : x ≠ y := fun hcon => hx (hcon ▸ List.mem_cons_self y ys)
      have hxys : x ∉ ys := fun hcon => hx (List.mem_cons_of_mem y hcon)
      rw [List.foldl_cons, ih _ x hxys, imputeNumericCol_other f tcOpt y x hxy]

theorem catFold_other (l : List String) :
    ∀ (f : Frame) (x : String), x ∉ l →
    getCol (l.foldl (fun d col => imputeCategoricalCol d col) f) x = getCol f x := by
  induction l with
  | nil => intro f x _; rfl
  | cons y ys ih =>
      intro f x hx
      have hxy : x ≠ y := fun hcon => hx (hcon ▸ List.mem_cons_self y ys)
      have hxys : x ∉ ys := fun hcon => hx (List.mem_cons_of_mem y hcon)
      rw [List.foldl_cons, ih _ x hxys, imputeCategoricalCol_other f y x hxy]

theorem numFold_genderColName (tcOpt : Option String) (l : List String) :
    ∀ (f : Frame),
    genderColName (l.foldl (fun d col => imputeNumericCol d tcOpt col) f) = genderColName f := by
  induction l with
  | nil => intro f; rfl
  | cons y ys ih =>
      intro f
      rw [List.foldl_cons, ih _, genderColName_imputeNumericCol]

theorem catFold_genderColName (l : List String) :
    ∀ (f : Frame),
    genderColName (l.foldl (fun d col => imputeCategoricalCol d col) f) = genderColName f := by
  induction l with
  | nil => intro f; rfl
  | cons y ys ih =>
      intro f
      rw [List.foldl_cons, ih _, genderColName_imputeCategoricalCol]

theorem numFold_fills (tcOpt : Option String) (l : List String) :
    ∀ (f : Frame),
    (∀ c ∈ l, cellNums (getCol f c) ≠ [] ∨ missingCount (getCol f c) = 0) →
    (∀ tc, tcOpt = some tc → missingCount (getCol f tc) = 0 ∧ tc ∉ l) →
    ∀ c ∈ l, missingCount
      (getCol (l.foldl (fun d col => imputeNumericCol d tcOpt col) f) c) = 0 := by
  induction l with
  | nil => intro f _ _ c hc; simp at hc
  | cons y ys ih =>
      intro f hinv htgt c hc
      rw [List.foldl_cons]
      have hyzero : missingCount (getCol (imputeNumericCol f tcOpt y) y) = 0 := by
        rcases hinv y (List.mem_cons_self y ys) with hl | hr
        · exact imputeNumericCol_fills f tcOpt y hl (fun tc h => (htgt tc h).1)
        · exact imputeNumericCol_keeps_zero f tcOpt y y hr
      have hinv' : ∀ c ∈ ys,
          cellNums (getCol (imputeNumericCol f tcOpt y) c) ≠ [] ∨
          missingCount (getCol (imputeNumericCol f tcOpt y) c) = 0 := by
        intro c2 hc2
        by_cases hcy : c2 = y
        · subst hcy
          exact Or.inr hyzero
        · rw [imputeNumericCol_other f tcOpt y c2 hcy]
          exact hinv c2 (List.mem_cons_of_mem y hc2)
      have htgt' : ∀ tc, tcOpt = some tc →
          missingCount (getCol (imputeNumericCol f tcOpt y) tc) = 0 ∧ tc ∉ ys := by
        intro tc h
        obtain ⟨hz, hm⟩ := htgt tc h
        have hty : tc ≠ y := fun hcon => hm (hcon ▸ List.mem_cons_self y ys)
        constructor
        · rw [imputeNumericCol_other f tcOpt y tc hty]
          exact hz
        · exact fun hcon => hm (List.mem_cons_of_mem y hcon)
      rcases List.mem_cons.mp hc with rfl | hcys
      · exact numFold_keeps_zero tcOpt ys _ c hyzero
      · exact ih _ hinv' htgt' c hcys

theorem catFold_fills (l : List String) :
    ∀ (f : Frame),
    (∀ gc, genderColName f = some gc → missingCount (getCol f gc) = 0) →
    ∀ c ∈ l, missingCount
      (getCol (l.foldl (fun d col => imputeCategoricalCol d col) f) c) = 0 := by
  induction l with
  | nil => intro f _ c hc; simp at hc
  | cons y ys ih =>
      intro f hgen c hc
      rw [List.foldl_cons]
      have hyzero : missingCount (getCol (imputeCategoricalCol f y) y) = 0 :=
        imputeCategoricalCol_fills f y hgen
      have hgen' : ∀ gc, genderColName (imputeCategoricalCol f y) = some gc →
          missingCount (getCol (imputeCategoricalCol f y) gc) = 0 := by
        intro gc hgc
        rw [genderColName_imputeCategoricalCol] at hgc
        exact imputeCategoricalCol_keeps_zero f y gc (hgen gc hgc)
      rcases List.mem_cons.mp hc with rfl | hcys
      · exact catFold_keeps_zero ys _ c hyzero
      · exact ih _ hgen' c hcys

/-- Claim C1, amended: after `enhanced_imputation`, every categorical
feature column has zero missing values provided every row of the gender
column (when one exists) is observed; every numeric feature column has
zero missing values provided it has at least one observed numeric value
(the median of an all-missing column is NaN and fills nothing) and the
target column (when grouping applies) has no missing entries; and the
target column itself is returned unchanged. -/
theorem C1_amended (f : Frame) (numeric_cols categorical_cols : List String)
    (tcOpt : Option String)
    (hnum : ∀ c ∈ numeric_cols, cellNums (getCol f c) ≠ [])
    (htgt : ∀ tc, tcOpt = some tc →
      missingCount (getCol f tc) = 0 ∧ tc ∉ numeric_cols ∧ tc ∉ categorical_cols)
    (hgen : ∀ gc, genderColName f = some gc → missingCount (getCol f gc) = 0) :
    (∀ c ∈ numeric_cols, missingCount
      (getCol (enhanced_imputation f numeric_cols categorical_cols tcOpt) c) = 0) ∧
    (∀ c ∈ categorical_cols, missingCount
      (getCol (enhanced_imputation f numeric_cols categorical_cols tcOpt) c) = 0) ∧
    (∀ tc, tcOpt = some tc →
      getCol (enhanced_imputation f numeric_cols categorical_cols tcOpt) tc
        = getCol f tc) := by
  simp only [enhanced_imputation]
  have hnumZero : ∀ c ∈ numeric_cols, missingCount
      (getCol (numeric_cols.foldl (fun d col => imputeNumericCol d tcOpt col) f) c) = 0 :=
    numFold_fills tcOpt numeric_cols f (fun c hc => Or.inl (hnum c hc))
      (fun tc h => ⟨(htgt tc h).1, (htgt tc h).2.1⟩)
  refine ⟨?_, ?_, ?_⟩
  · intro c hc
    exact catFold_keeps_zero categorical_cols _ c (hnumZero c hc)
  · intro c hc
    refine catFold_fills categorical_cols _ ?_ c hc
    intro gc hgc
    rw [numFold_genderColName] at hgc
    exact numFold_keeps_zero tcOpt numeric_cols f gc (hgen gc hgc)
  · intro tc h
    obtain ⟨_, hn, hcN⟩ := htgt tc h
    rw [catFold_other categorical_cols _ tc hcN, numFold_other tcOpt numeric_cols f tc hn]

/-- Claim C1 is false as stated: a numeric feature column whose values
are all missing keeps all its missing values — the code fills with the
column median, which is NaN, and `fillna(NaN)` changes nothing. -/
theorem C1_counterexample :
    missingCount (getCol (enhanced_imputation impFrameEx ["x"] [] none) "x") = 2 ∧
    (2 : Nat) ≠ 0 := by decide

/-- Witness for C1_amended on the concrete frame `impFrameWit`,
exercising the target-grouped median, gender-aware and mode/Unknown
paths. -/
theorem C1_witness :
    (∀ c ∈ ["bmi"], missingCount (getCol (enhanced_imputation impFrameWit ["bmi"]
        ["gender", "gestational_history", "color"] (some "Outcome")) c) = 0) ∧
    (∀ c ∈ ["gender", "gestational_history", "color"],
      missingCount (getCol (enhanced_imputation impFrameWit ["bmi"]
        ["gender", "gestational_history", "color"] (some "Outcome")) c) = 0) ∧
    (∀ tc, (some "Outcome" : Option String) = some tc →
      getCol (enhanced_imputation impFrameWit ["bmi"]
        ["gender", "gestational_history", "color"] (some "Outcome")) tc
        = getCol impFrameWit tc) :=
  C1_amended impFrameWit ["bmi"] ["gender", "gestational_history", "color"]
    (some "Outcome")
    (by decide)
    (fun tc h => by
      injection h with h
      subst h
      exact ⟨by decide, by decide, by decide⟩)
    (fun gc h => by
      rw [show genderColName impFrameWit = some "gender" from by decide] at h
      injection h with h
      subst h
      decide)
